import Mathlib

/-!
Verification of the 2-D heat-equation solver (`HeatEquationSolver` in
`src/pipeline/heatEquationSolver.py`, plus the module-level stability check in
`src/notebooks/main.py`).

The embedding is shallow: the temperature field is a total function
`ℕ → ℕ → ℚ` (only indices below `ny`/`nx` are meaningful), floating point is
modelled by exact rationals, Python's `round` (banker's rounding, half to
even) is `pyRound`, and Python/numpy slice semantics — including clamping and
negative-index wrapping — are `sliceIdx`/`inSlice`.  Operations that can raise
at run time (`AttributeError` on the not-yet-defined `mask_inner`,
`IndexError` in `_apply_boundary_conditions` on degenerate grids,
`ZeroDivisionError` from `i % (steps // 10)` in `run`) return
`Except StepErr _`.
-/

namespace Heat

/-- Floor of a rational, computed by floor-division of the numerator by the
(positive) denominator. -/
def ratFloor (q : ℚ) : ℤ := Int.fdiv q.num (q.den : ℤ)

/-- Python's `round` on an exact rational: round half to even, as `round`
behaves in Python 3 (used by the source as `int(round(...))`). -/
def pyRound (q : ℚ) : ℤ :=
  let f := ratFloor q
  let r := q - (f : ℚ)
  if r < 1/2 then f
  else if 1/2 < r then f + 1
  else if f % 2 = 0 then f else f + 1

/-- Resolution of a Python slice endpoint against an axis of length `n`:
negative indices count from the end (clamped at 0), nonnegative ones are
clamped at `n`. -/
def sliceIdx (n : ℕ) (a : ℤ) : ℕ :=
  if a < 0 then ((n : ℤ) + a).toNat else min a.toNat n

/-- Membership of index `i` in the Python slice `[a:b]` of an axis of
length `n`. -/
def inSlice (n : ℕ) (a b : ℤ) (i : ℕ) : Bool :=
  decide (sliceIdx n a ≤ i ∧ i < sliceIdx n b)

/-- A 2-D temperature field, row index first (row = y, column = x), as in the
source's `ny × nx` numpy array. -/
def Grid : Type := ℕ → ℕ → ℚ

/-- Robin boundary formula from `_apply_boundary_conditions`:
`(adjacent + beta * u_outdoor) / (1 + beta)`. -/
def robin (beta out x : ℚ) : ℚ := (x + beta * out) / (1 + beta)

/-- The configuration dictionary accepted by `HeatEquationSolver.__init__`.
The three conductivities are optional (`config.get` with defaults in the
source). -/
structure HeatConfig where
  Lx : ℚ
  Ly : ℚ
  dx : ℚ
  dt : ℚ
  alpha : ℚ
  u_outdoor : ℚ
  power : ℚ
  pressure : ℚ
  r_gas : ℚ
  c_specific : ℚ
  thermostat_temp : ℚ
  u_start : ℚ
  lambda_air : Option ℚ
  lambda_wall : Option ℚ
  lambda_window : Option ℚ

/-- The state of a `HeatEquationSolver` instance.  `mask_inner_defined`
records whether the `mask_inner` attribute exists yet (it is created only by
the first `add_radiator` call); its contents are not stored separately
because in the source `mask_inner` is a numpy *view* of
`radiator_mask[1:-1, 1:-1]`. -/
structure Solver where
  nx : ℕ
  ny : ℕ
  dx : ℚ
  dt : ℚ
  alpha : ℚ
  u_outdoor : ℚ
  P : ℚ
  p_pressure : ℚ
  r_gas : ℚ
  c_specific : ℚ
  area : ℚ
  thermostat_setting : ℚ
  beta_wall : ℚ
  beta_window : ℚ
  u : Grid
  radiator_mask : ℕ → ℕ → Bool
  mask_inner_defined : Bool
  heating_factor_per_step : ℚ
  active_cells_count : ℕ
  total_energy : ℚ
  sensor_mask : ℕ → ℕ → Bool
  window_left : Bool
  window_right : Bool

/-- All grid cells of an `ny × nx` array. -/
def gridCells (ny nx : ℕ) : Finset (ℕ × ℕ) := Finset.range ny ×ˢ Finset.range nx

/-- Number of `True` cells of `mask[1:-1, 1:-1]`, i.e. of the
`(ny-2) × (nx-2)` interior view, as computed by `np.sum(self.mask_inner)`. -/
def innerCount (ny nx : ℕ) (m : ℕ → ℕ → Bool) : ℕ :=
  ((gridCells (ny - 2) (nx - 2)).filter (fun p => m (p.1 + 1) (p.2 + 1) = true)).card

/-- `HeatEquationSolver.__init__`.  The source performs no validation; the
only ways construction can fail are the Python `ZeroDivisionError` from
`Lx / dx` with `dx == 0` and numpy's `ValueError` for a negative dimension in
`np.ones`, both modelled as `none`. -/
def heatInit (cfg : HeatConfig) : Option Solver :=
  if cfg.dx = 0 then none
  else
    let nxZ := pyRound (cfg.Lx / cfg.dx)
    let nyZ := pyRound (cfg.Ly / cfg.dx)
    if nxZ < 0 ∨ nyZ < 0 then none
    else
      let la := cfg.lambda_air.getD (26/1000)
      some
        { nx := nxZ.toNat
          ny := nyZ.toNat
          dx := cfg.dx
          dt := cfg.dt
          alpha := cfg.alpha
          u_outdoor := cfg.u_outdoor
          P := cfg.power
          p_pressure := cfg.pressure
          r_gas := cfg.r_gas
          c_specific := cfg.c_specific
          area := cfg.dx * cfg.dx
          thermostat_setting := cfg.thermostat_temp
          beta_wall := (cfg.lambda_wall.getD (1/2) / la) * cfg.dx
          beta_window := (cfg.lambda_window.getD 2 / la) * cfg.dx
          u := fun _ _ => cfg.u_start
          radiator_mask := fun _ _ => false
          mask_inner_defined := false
          heating_factor_per_step := 0
          active_cells_count := 0
          total_energy := 0
          sensor_mask := fun _ _ => true
          window_left := false
          window_right := false }

/-- `HeatEquationSolver.set_windows`. -/
def set_windows (l r : Bool) (s : Solver) : Solver :=
  { s with window_left := l, window_right := r }

/-- `HeatEquationSolver.clear_radiators`. -/
def clear_radiators (s : Solver) : Solver :=
  { s with radiator_mask := fun _ _ => false
           active_cells_count := 0
           heating_factor_per_step := 0 }

/-- `HeatEquationSolver.add_radiator`: convert physical coordinates to grid
indices with `int(round(_ / dx))`, clamp only the end indices with `min`,
union the rectangle (Python slice semantics) into the radiator mask,
recompute `active_cells_count` from the interior view, and recompute the
heating factor only when the count is positive. -/
def add_radiator (x y w h : ℚ) (s : Solver) : Solver :=
  let ix_start := pyRound (x / s.dx)
  let iy_start := pyRound (y / s.dx)
  let ix_end := min (pyRound ((x + w) / s.dx)) (s.nx : ℤ)
  let iy_end := min (pyRound ((y + h) / s.dx)) (s.ny : ℤ)
  let rm : ℕ → ℕ → Bool := fun i j =>
    s.radiator_mask i j || (inSlice s.ny iy_start iy_end i && inSlice s.nx ix_start ix_end j)
  let cnt := innerCount s.ny s.nx rm
  if 0 < cnt then
    { s with radiator_mask := rm
             mask_inner_defined := true
             active_cells_count := cnt
             heating_factor_per_step :=
               ((s.P / (cnt : ℚ)) * s.r_gas) / (s.p_pressure * s.area * s.c_specific) * s.dt }
  else
    { s with radiator_mask := rm
             mask_inner_defined := true
             active_cells_count := cnt }

/-- `HeatEquationSolver.set_sensor_region`: reset the mask and mark the
slice `[1:-1, ix_start:ix_end]` where `ix_end` was clamped with
`min(ix_end, nx)` (the start index is not clamped). -/
def set_sensor_region (x_start x_end : ℚ) (s : Solver) : Solver :=
  let ixs := pyRound (x_start / s.dx)
  let ixe := min (pyRound (x_end / s.dx)) (s.nx : ℤ)
  { s with sensor_mask := fun i j => inSlice s.ny 1 (-1) i && inSlice s.nx ixs ixe j }

/-- Overwrite column `c` with the Robin formula read from column `adj` of the
current field (`u[:, c] = (u[:, adj] + beta*out) / (1 + beta)`). -/
def updCol (c adj : ℕ) (beta out : ℚ) (u : Grid) : Grid :=
  fun i j => if j = c then robin beta out (u i adj) else u i j

/-- Overwrite row `r` with the Robin formula read from row `adj` of the
current field. -/
def updRow (r adj : ℕ) (beta out : ℚ) (u : Grid) : Grid :=
  fun i j => if i = r then robin beta out (u adj j) else u i j

/-- Overwrite rows `[lo, hi)` of column `c` with the Robin formula read from
column `adj` of the current field (the window override). -/
def updColRange (c adj lo hi : ℕ) (beta out : ℚ) (u : Grid) : Grid :=
  fun i j => if j = c ∧ lo ≤ i ∧ i < hi then robin beta out (u i adj) else u i j

/-- `HeatEquationSolver._apply_boundary_conditions`, as the sequential
composition the source performs: left column, right column, row `ny-1`,
row `0`, then the optional window overrides on rows
`[(ny - ny/2)/2, (ny - ny/2)/2 + ny/2)` of the left and right columns. -/
def applyBCu (s : Solver) (u0 : Grid) : Grid :=
  let u1 := updCol 0 1 s.beta_wall s.u_outdoor u0
  let u2 := updCol (s.nx - 1) (s.nx - 2) s.beta_wall s.u_outdoor u1
  let u3 := updRow (s.ny - 1) (s.ny - 2) s.beta_wall s.u_outdoor u2
  let u4 := updRow 0 1 s.beta_wall s.u_outdoor u3
  let ws := s.ny / 2
  let ys := (s.ny - ws) / 2
  let u5 := if s.window_left then updColRange 0 1 ys (ys + ws) s.beta_window s.u_outdoor u4 else u4
  if s.window_right then
    updColRange (s.nx - 1) (s.nx - 2) ys (ys + ws) s.beta_window s.u_outdoor u5
  else u5

/-- The thermostat reading in `step`: mean of the field over the sensor mask
if any cell is selected (`np.any`), global mean otherwise. -/
def senseMean (s : Solver) : ℚ :=
  let sel := (gridCells s.ny s.nx).filter (fun p => s.sensor_mask p.1 p.2 = true)
  if sel.card ≠ 0 then (∑ p ∈ sel, s.u p.1 p.2) / (sel.card : ℚ)
  else (∑ p ∈ gridCells s.ny s.nx, s.u p.1 p.2) / ((s.ny : ℚ) * (s.nx : ℚ))

/-- The radiator fires this step: sensed mean strictly below the setpoint and
a positive active-cell count (`step`'s two nested `if`s). -/
def fireCond (s : Solver) : Prop :=
  senseMean s < s.thermostat_setting ∧ 0 < s.active_cells_count

instance (s : Solver) : Decidable (fireCond s) := by
  unfold fireCond; infer_instance

/-- The five-point Laplacian numerator at interior cell `(i, j)` (value of
`laplacian_sum` in `step`). -/
def laplacianSum (s : Solver) (i j : ℕ) : ℚ :=
  s.u (i - 1) j + s.u (i + 1) j + s.u i (j - 1) + s.u i (j + 1) - 4 * s.u i j

/-- `diffusion_factor` in `step`: `alpha * dt / dx**2`. -/
def diffusionCoeff (s : Solver) : ℚ := s.alpha * s.dt / s.dx ^ 2

/-- The heat injected at cell `(i, j)` this step: the multiplicative source
`heating_factor_per_step * u[i, j]` at interior radiator cells when the
radiator fires (`change[self.mask_inner] += ...`), zero elsewhere. -/
def heatDelta (s : Solver) (i j : ℕ) : ℚ :=
  if (1 ≤ i ∧ i < s.ny - 1 ∧ 1 ≤ j ∧ j < s.nx - 1) ∧ fireCond s ∧ s.radiator_mask i j = true then
    s.heating_factor_per_step * s.u i j
  else 0

/-- The field after the in-place interior update `u[1:-1, 1:-1] += change`:
diffusion plus source on interior cells, everything else untouched. -/
def updatedInterior (s : Solver) : Grid :=
  fun i j =>
    if 1 ≤ i ∧ i < s.ny - 1 ∧ 1 ≤ j ∧ j < s.nx - 1 then
      s.u i j + diffusionCoeff s * laplacianSum s i j + heatDelta s i j
    else s.u i j

/-- Energy accumulated during one `step`: `P * dt` exactly when the radiator
fires. -/
def eDelta (s : Solver) : ℚ := if fireCond s then s.P * s.dt else 0

/-- The run-time errors the source can raise during `step`/`run`. -/
inductive StepErr : Type where
  | attrErr : StepErr
  | indexErr : StepErr
  | zeroDivErr : StepErr
deriving DecidableEq

/-- `HeatEquationSolver.step`.  Raises `AttributeError` if the heating branch
is reached while `mask_inner` was never created, and `IndexError` inside
`_apply_boundary_conditions` when an axis is shorter than 2 (e.g. `u[:, 1]`
on a single-column grid); otherwise updates the interior, accumulates energy,
and applies the boundary conditions. -/
def step (s : Solver) : Except StepErr Solver :=
  if fireCond s ∧ s.mask_inner_defined = false then .error .attrErr
  else if s.nx < 2 ∨ s.ny < 2 then .error .indexErr
  else .ok { s with u := applyBCu s (updatedInterior s)
                    total_energy := s.total_energy + eDelta s }

/-- Sequential composition of `n` calls to `step`, propagating any error. -/
def stepN : ℕ → Solver → Except StepErr Solver
  | 0, s => .ok s
  | n + 1, s => (step s).bind (stepN n)

/-- `HeatEquationSolver.run`.  The loop body evaluates
`i % (steps // 10)` after the first `step()`, so any `steps` in `1..9` makes
Python raise `ZeroDivisionError` (`steps // 10 == 0`) right after the first
step; `steps = 0` skips the loop. -/
def run (steps : ℕ) (s : Solver) : Except StepErr Solver :=
  if steps = 0 then .ok s
  else if steps / 10 = 0 then (step s).bind (fun _ => .error .zeroDivErr)
  else stepN steps s

/-- Returns `true` exactly on successful results. -/
def exceptOk : Except StepErr Solver → Bool
  | .ok _ => true
  | .error _ => false

/-- The stability check at module level in `src/notebooks/main.py`:
`dt > 0.34 * h**2` (the thermal diffusivity `alpha` does not appear in the
condition). -/
def notebookUnstable (dt h : ℚ) : Bool :=
  decide ((34/100) * h ^ 2 < dt)

/-- Placeholder solver used only as the default of `Option.getD` on results
that are proved to be `some`. -/
def dummySolver : Solver :=
  { nx := 0, ny := 0, dx := 1, dt := 0, alpha := 0, u_outdoor := 0, P := 0
    p_pressure := 0, r_gas := 0, c_specific := 0, area := 0
    thermostat_setting := 0, beta_wall := 0, beta_window := 0
    u := fun _ _ => 0, radiator_mask := fun _ _ => false
    mask_inner_defined := false, heating_factor_per_step := 0
    active_cells_count := 0, total_energy := 0
    sensor_mask := fun _ _ => false, window_left := false, window_right := false }

/-- Concrete configuration with a `4 × 4` grid and simple constants
(`beta_wall = 1`, `beta_window = 2`, `area = 1`), used by the witnesses. -/
def cfg4 : HeatConfig :=
  { Lx := 4, Ly := 4, dx := 1, dt := 1, alpha := 1/8, u_outdoor := 0
    power := 2, pressure := 1, r_gas := 1, c_specific := 1
    thermostat_temp := 100, u_start := 16
    lambda_air := some 1, lambda_wall := some 1, lambda_window := some 2 }

/-- The freshly constructed `4 × 4` solver. -/
def base4 : Solver := (heatInit cfg4).getD dummySolver

/-- `base4` after adding a one-cell radiator at interior cell `(1, 1)`. -/
def w0 : Solver := add_radiator 1 1 1 1 base4

/-- The state after one `step` of `w0`. -/
def w1 : Solver := ((step w0).toOption).getD dummySolver

/-- The state after two `step`s of `w0`. -/
def w2 : Solver := ((stepN 2 w0).toOption).getD dummySolver

/-- Claim-side pointwise description of the boundary pass: every edge cell
carries the Robin form computed from the already-updated field (corners are
overwritten twice, so they carry a doubly-applied Robin form), the window
override replaces `beta_wall` by `beta_window` exactly on rows
`[(ny - ny/2)/2, (ny - ny/2)/2 + ny/2)` of the left/right columns, top and
bottom rows never receive window treatment, and interior cells are
untouched. -/
def bcSpec (s : Solver) (u0 : Grid) (i j : ℕ) : ℚ :=
  let bw := s.beta_wall
  let bv := s.beta_window
  let o := s.u_outdoor
  let ws := s.ny / 2
  let ys := (s.ny - ws) / 2
  let ye := ys + ws
  if i = 0 then
    if j = 0 then robin bw o (robin bw o (u0 1 1))
    else if j = s.nx - 1 then robin bw o (robin bw o (u0 1 (s.nx - 2)))
    else robin bw o (u0 1 j)
  else if i = s.ny - 1 then
    if j = 0 then robin bw o (robin bw o (u0 (s.ny - 2) 1))
    else if j = s.nx - 1 then robin bw o (robin bw o (u0 (s.ny - 2) (s.nx - 2)))
    else robin bw o (u0 (s.ny - 2) j)
  else if j = 0 then
    if s.window_left = true ∧ ys ≤ i ∧ i < ye then robin bv o (u0 i 1)
    else robin bw o (u0 i 1)
  else if j = s.nx - 1 then
    if s.window_right = true ∧ ys ≤ i ∧ i < ye then robin bv o (u0 i (s.nx - 2))
    else robin bw o (u0 i (s.nx - 2))
  else u0 i j

lemma step_ok_elim {s s' : Solver} (h : step s = Except.ok s') :
    s' = { s with u := applyBCu s (updatedInterior s)
                  total_energy := s.total_energy + eDelta s } := by
  unfold step at h
  split at h
  · exact Except.noConfusion h
  · split at h
    · exact Except.noConfusion h
    · cases h; rfl

lemma ite_grid_apply (c : Prop) [Decidable c] (f g : Grid) (i j : ℕ) :
    (if c then f else g) i j = if c then f i j else g i j := by
  split <;> rfl

lemma updCol_apply (c adj : ℕ) (beta out : ℚ) (u : Grid) (i j : ℕ) :
    updCol c adj beta out u i j = if j = c then robin beta out (u i adj) else u i j := rfl

lemma updRow_apply (r adj : ℕ) (beta out : ℚ) (u : Grid) (i j : ℕ) :
    updRow r adj beta out u i j = if i = r then robin beta out (u adj j) else u i j := rfl

lemma updColRange_apply (c adj lo hi : ℕ) (beta out : ℚ) (u : Grid) (i j : ℕ) :
    updColRange c adj lo hi beta out u i j =
      if j = c ∧ lo ≤ i ∧ i < hi then robin beta out (u i adj) else u i j := rfl

/-- Closed form of the four wall updates alone (left column, right column,
row `ny-1`, row `0`), before any window override. -/
def wallSpec (s : Solver) (u0 : Grid) (i j : ℕ) : ℚ :=
  let bw := s.beta_wall
  let o := s.u_outdoor
  if i = 0 then
    if j = 0 then robin bw o (robin bw o (u0 1 1))
    else if j = s.nx - 1 then robin bw o (robin bw o (u0 1 (s.nx - 2)))
    else robin bw o (u0 1 j)
  else if i = s.ny - 1 then
    if j = 0 then robin bw o (robin bw o (u0 (s.ny - 2) 1))
    else if j = s.nx - 1 then robin bw o (robin bw o (u0 (s.ny - 2) (s.nx - 2)))
    else robin bw o (u0 (s.ny - 2) j)
  else if j = 0 then robin bw o (u0 i 1)
  else if j = s.nx - 1 then robin bw o (u0 i (s.nx - 2))
  else u0 i j

set_option maxHeartbeats 2000000 in
lemma wallPass_eq (s : Solver) (u0 : Grid) (hx : 3 ≤ s.nx) (hy : 3 ≤ s.ny)
    (i j : ℕ) :
    updRow 0 1 s.beta_wall s.u_outdoor
      (updRow (s.ny - 1) (s.ny - 2) s.beta_wall s.u_outdoor
        (updCol (s.nx - 1) (s.nx - 2) s.beta_wall s.u_outdoor
          (updCol 0 1 s.beta_wall s.u_outdoor u0))) i j = wallSpec s u0 i j := by
  simp only [updRow_apply, updCol_apply, wallSpec]
  split_ifs <;> first | rfl | omega

set_option maxHeartbeats 4000000 in
lemma applyBCu_eq_bcSpec (s : Solver) (u0 : Grid) (hx : 3 ≤ s.nx) (hy : 3 ≤ s.ny)
    (i j : ℕ) (hi : i < s.ny) (hj : j < s.nx) :
    applyBCu s u0 i j = bcSpec s u0 i j := by
  have hys : 1 ≤ (s.ny - s.ny / 2) / 2 := by omega
  have hye : (s.ny - s.ny / 2) / 2 + s.ny / 2 ≤ s.ny - 1 := by omega
  cases hwl : s.window_left <;> cases hwr : s.window_right <;>
    simp only [applyBCu, hwl, hwr, reduceIte, ite_grid_apply, updColRange_apply] <;>
    simp only [wallPass_eq s u0 hx hy] <;>
    simp only [wallSpec, bcSpec, hwl, hwr, reduceIte, true_and, eq_self_iff_true,
      false_and, and_false, if_false] <;>
    split_ifs <;> first | rfl | contradiction | omega | exact (‹False ∧ _›).1.elim

lemma applyBCu_interior (s : Solver) (u0 : Grid) {i j : ℕ}
    (hi1 : 1 ≤ i) (hi2 : i < s.ny - 1) (hj1 : 1 ≤ j) (hj2 : j < s.nx - 1) :
    applyBCu s u0 i j = u0 i j := by
  have hx : 3 ≤ s.nx := by omega
  have hy : 3 ≤ s.ny := by omega
  rw [applyBCu_eq_bcSpec s u0 hx hy i j (by omega) (by omega)]
  simp only [bcSpec]
  rw [if_neg (by omega), if_neg (by omega), if_neg (by omega), if_neg (by omega)]

lemma sliceIdx_le (n : ℕ) (a : ℤ) : sliceIdx n a ≤ n := by
  unfold sliceIdx
  split <;> omega

lemma sliceIdx_min_self (n : ℕ) (a : ℤ) : sliceIdx n (min a (n : ℤ)) = sliceIdx n a := by
  unfold sliceIdx
  rcases le_total a ((n : ℤ)) with hle | hle
  · rw [min_eq_left hle]
  · rw [min_eq_right hle]
    split_ifs <;> omega

lemma inSlice_min_same (n : ℕ) (a : ℤ) (i : ℕ) : inSlice n a (min a (n : ℤ)) i = false := by
  unfold inSlice
  rw [sliceIdx_min_self]
  simp only [decide_eq_false_iff_not]
  rintro ⟨h1, h2⟩
  omega

lemma inSlice_start_ge (n : ℕ) (a b : ℤ) (hn : (n : ℤ) ≤ a) (i : ℕ) :
    inSlice n a (min b (n : ℤ)) i = false := by
  have h3 := sliceIdx_le n (min b (n : ℤ))
  have h4 : sliceIdx n a = n := by
    unfold sliceIdx
    split <;> omega
  unfold inSlice
  simp only [decide_eq_false_iff_not]
  rintro ⟨h1, h2⟩
  omega

lemma eDelta_nonneg (s : Solver) (hP : 0 ≤ s.P) (hdt : 0 ≤ s.dt) : 0 ≤ eDelta s := by
  unfold eDelta
  split
  · exact mul_nonneg hP hdt
  · exact le_refl 0

lemma eDelta_zero_of_no_cells (s : Solver) (hc : s.active_cells_count = 0) : eDelta s = 0 := by
  have hnf : ¬ fireCond s := fun hf => by have h2 := hf.2; omega
  unfold eDelta
  exact if_neg hnf

lemma stepN_energy_mono (n : ℕ) : ∀ (s s' : Solver), 0 ≤ s.P → 0 ≤ s.dt →
    stepN n s = Except.ok s' → s.total_energy ≤ s'.total_energy := by
  induction n with
  | zero =>
    intro s s' _ _ h
    cases h
    exact le_refl _
  | succ k ih =>
    intro s s' hP hdt h
    rw [stepN] at h
    cases hstep : step s with
    | error e =>
      rw [hstep] at h
      exact Except.noConfusion h
    | ok t =>
      rw [hstep] at h
      have ht := step_ok_elim hstep
      have h1 : s.total_energy ≤ t.total_energy := by
        rw [ht]
        show s.total_energy ≤ s.total_energy + eDelta s
        exact le_add_of_nonneg_right (eDelta_nonneg s hP hdt)
      refine le_trans h1 (ih t s' ?_ ?_ h)
      · rw [ht]; exact hP
      · rw [ht]; exact hdt

lemma stepN_energy_const (n : ℕ) : ∀ (t t' : Solver), t.active_cells_count = 0 →
    stepN n t = Except.ok t' → t'.total_energy = t.total_energy := by
  induction n with
  | zero =>
    intro t t' _ h
    cases h
    rfl
  | succ k ih =>
    intro t t' hc h
    rw [stepN] at h
    cases hstep : step t with
    | error e =>
      rw [hstep] at h
      exact Except.noConfusion h
    | ok u =>
      rw [hstep] at h
      have hu := step_ok_elim hstep
      have h1 : u.total_energy = t.total_energy := by
        rw [hu]
        show t.total_energy + eDelta t = t.total_energy
        rw [eDelta_zero_of_no_cells t hc, add_zero]
      have h2 : u.active_cells_count = 0 := by
        rw [hu]; exact hc
      exact (ih u t' h2 h).trans h1

lemma innerCount_eq_interior (ny nx : ℕ) (m : ℕ → ℕ → Bool) :
    innerCount ny nx m =
      ((gridCells ny nx).filter
        (fun p => (1 ≤ p.1 ∧ p.1 < ny - 1 ∧ 1 ≤ p.2 ∧ p.2 < nx - 1) ∧ m p.1 p.2 = true)).card := by
  unfold innerCount
  apply Finset.card_nbij' (fun p => (p.1 + 1, p.2 + 1)) (fun p => (p.1 - 1, p.2 - 1))
  · rintro ⟨a, b⟩ ha
    simp only [gridCells, Finset.mem_filter, Finset.mem_product, Finset.mem_range] at ha ⊢
    obtain ⟨⟨h1, h2⟩, h3⟩ := ha
    exact ⟨⟨by omega, by omega⟩, ⟨by omega, by omega, by omega, by omega⟩, h3⟩
  · rintro ⟨a, b⟩ hp
    simp only [gridCells, Finset.mem_filter, Finset.mem_product, Finset.mem_range] at hp ⊢
    obtain ⟨⟨h1, h2⟩, ⟨h3, h4, h5, h6⟩, h7⟩ := hp
    refine ⟨⟨by omega, by omega⟩, ?_⟩
    have e1 : a - 1 + 1 = a := by omega
    have e2 : b - 1 + 1 = b := by omega
    rw [e1, e2]
    exact h7
  · rintro ⟨a, b⟩ _
    simp
  · rintro ⟨a, b⟩ hp
    simp only [gridCells, Finset.mem_filter, Finset.mem_product, Finset.mem_range] at hp
    obtain ⟨-, ⟨h3, h4, h5, h6⟩, -⟩ := hp
    simp only [Prod.mk.injEq]
    constructor <;> omega

/-- The number of grid cells that are interior and belong to the radiator
mask, counted over the full grid (claim-side formulation for C8). -/
def interiorMaskCard (s : Solver) : ℕ :=
  ((gridCells s.ny s.nx).filter
    (fun p => (1 ≤ p.1 ∧ p.1 < s.ny - 1 ∧ 1 ≤ p.2 ∧ p.2 < s.nx - 1)
      ∧ s.radiator_mask p.1 p.2 = true)).card

/-- The interior update with the source term dropped (claim-side formulation
for C10: what `step` computes when no heat is injected). -/
def diffOnly (s : Solver) : Grid :=
  fun i j =>
    if 1 ≤ i ∧ i < s.ny - 1 ∧ 1 ≤ j ∧ j < s.nx - 1 then
      s.u i j + diffusionCoeff s * laplacianSum s i j
    else s.u i j

set_option maxRecDepth 100000

/-- Concrete windowed solver for the C1 witness. -/
def w3 : Solver := set_windows true true base4

/-- The state after one `step` of `w3`. -/
def w4 : Solver := ((step w3).toOption).getD dummySolver

/-- C1: on every step, after the diffusion-plus-source interior update, the
four boundary edges are overwritten in the order left column, right column,
bottom row, top row, each edge cell receiving
`(adjacent_value + beta_wall*u_outdoor)/(1+beta_wall)` computed from the
already-updated field (so corners, written twice, carry a doubly applied
Robin form reading the interior through the previously written edge); then
the rows `[(ny-ny/2)/2, (ny-ny/2)/2 + ny/2)` of the left (resp. right) edge
column are recomputed with `beta_window` when `window_left` (resp.
`window_right`) is set, and the top and bottom rows never receive window
treatment.  `bcSpec` is the pointwise transcription of exactly that
prescription, and the final field of `step` equals it on the whole grid. -/
theorem heat_boundary_pass (s s' : Solver) (h : step s = Except.ok s')
    (hx : 3 ≤ s.nx) (hy : 3 ≤ s.ny) (i j : ℕ) (hi : i < s.ny) (hj : j < s.nx) :
    s'.u i j = bcSpec s (updatedInterior s) i j := by
  rw [step_ok_elim h]
  show applyBCu s (updatedInterior s) i j = _
  exact applyBCu_eq_bcSpec s (updatedInterior s) hx hy i j hi hj

/-- Witness for C1: a concrete `4 × 4` solver with both windows set, checked
at the window cell `(1,0)` and at the corner `(0,0)`. -/
theorem heat_boundary_pass_witness :
    (step w3 = Except.ok w4 ∧ 3 ≤ w3.nx ∧ 3 ≤ w3.ny ∧ 1 < w3.ny ∧ 0 < w3.nx)
    ∧ w4.u 1 0 = bcSpec w3 (updatedInterior w3) 1 0
    ∧ w4.u 0 0 = bcSpec w3 (updatedInterior w3) 0 0 := by
  have h : step w3 = Except.ok w4 := by with_unfolding_all rfl
  have hx : 3 ≤ w3.nx := by with_unfolding_all decide
  have hy : 3 ≤ w3.ny := by with_unfolding_all decide
  have h1 : 1 < w3.ny := by with_unfolding_all decide
  have h0 : 0 < w3.nx := by with_unfolding_all decide
  exact ⟨⟨h, hx, hy, h1, h0⟩,
    heat_boundary_pass w3 w4 h hx hy 1 0 (by with_unfolding_all decide) h0,
    heat_boundary_pass w3 w4 h hx hy 0 0 (by with_unfolding_all decide) h0⟩

/-- C2: `total_energy` grows by exactly `P * dt` on a step where the sensed
mean (computed from the pre-update field) is below the thermostat setpoint
and the active-cell count is positive, and by exactly 0 otherwise; over any
run (`stepN`) it is non-decreasing (for a physical configuration, i.e.
`P ≥ 0` and `dt ≥ 0`). -/
theorem heat_energy_accounting (s : Solver) (hP : 0 ≤ s.P) (hdt : 0 ≤ s.dt) :
    (∀ s', step s = Except.ok s' →
      s'.total_energy = s.total_energy +
        (if senseMean s < s.thermostat_setting ∧ 0 < s.active_cells_count
         then s.P * s.dt else 0))
    ∧ ∀ (n : ℕ) (s' : Solver), stepN n s = Except.ok s' →
        s.total_energy ≤ s'.total_energy := by
  have he : eDelta s =
      if senseMean s < s.thermostat_setting ∧ 0 < s.active_cells_count
      then s.P * s.dt else 0 := by
    unfold eDelta
    by_cases hc : fireCond s
    · rw [if_pos hc,
        if_pos (show senseMean s < s.thermostat_setting ∧ 0 < s.active_cells_count from hc)]
    · rw [if_neg hc,
        if_neg (show ¬ (senseMean s < s.thermostat_setting ∧ 0 < s.active_cells_count) from hc)]
  constructor
  · intro s' h
    rw [step_ok_elim h]
    show s.total_energy + eDelta s = _
    rw [he]
  · intro n s' h
    exact stepN_energy_mono n s s' hP hdt h

/-- Witness for C2 at a concrete solver with one radiator cell, whose sensed
mean (16) is below the setpoint (100): one step adds exactly
`P * dt = 2`. -/
theorem heat_energy_accounting_witness :
    (0 ≤ w0.P ∧ 0 ≤ w0.dt ∧ step w0 = Except.ok w1 ∧ stepN 2 w0 = Except.ok w2)
    ∧ w1.total_energy = w0.total_energy +
        (if senseMean w0 < w0.thermostat_setting ∧ 0 < w0.active_cells_count
         then w0.P * w0.dt else 0)
    ∧ w0.total_energy ≤ w2.total_energy := by
  have hP : (0:ℚ) ≤ w0.P := by with_unfolding_all decide
  have hdt : (0:ℚ) ≤ w0.dt := by with_unfolding_all decide
  have h1 : step w0 = Except.ok w1 := by with_unfolding_all rfl
  have h2 : stepN 2 w0 = Except.ok w2 := by with_unfolding_all rfl
  exact ⟨⟨hP, hdt, h1, h2⟩, (heat_energy_accounting w0 hP hdt).1 w1 h1,
    (heat_energy_accounting w0 hP hdt).2 2 w2 h2⟩

/-- C3: on a firing step (sensed mean from the pre-update field below the
setpoint, positive active-cell count), every interior radiator cell receives
exactly `heating_factor_per_step * u_cell_pre_update` on top of its diffusion
update — a multiplicative source evaluated on the pre-update snapshot, not a
flat additive constant. -/
theorem heat_multiplicative_source (s s' : Solver) (h : step s = Except.ok s')
    (hfire : senseMean s < s.thermostat_setting ∧ 0 < s.active_cells_count)
    (i j : ℕ) (hi1 : 1 ≤ i) (hi2 : i < s.ny - 1) (hj1 : 1 ≤ j) (hj2 : j < s.nx - 1)
    (hm : s.radiator_mask i j = true) :
    s'.u i j = s.u i j + diffusionCoeff s * laplacianSum s i j
      + s.heating_factor_per_step * s.u i j := by
  rw [step_ok_elim h]
  show applyBCu s (updatedInterior s) i j = _
  rw [applyBCu_interior s (updatedInterior s) hi1 hi2 hj1 hj2]
  unfold updatedInterior
  rw [if_pos ⟨hi1, hi2, hj1, hj2⟩]
  unfold heatDelta
  rw [if_pos ⟨⟨hi1, hi2, hj1, hj2⟩, hfire, hm⟩]

/-- Witness for C3 at the single radiator cell `(1,1)` of `w0`: its
post-step value is `16 + 0 + 2·16 = 48`. -/
theorem heat_multiplicative_source_witness :
    (step w0 = Except.ok w1
      ∧ (senseMean w0 < w0.thermostat_setting ∧ 0 < w0.active_cells_count)
      ∧ 1 < w0.ny - 1 ∧ 1 < w0.nx - 1 ∧ w0.radiator_mask 1 1 = true)
    ∧ w1.u 1 1 = w0.u 1 1 + diffusionCoeff w0 * laplacianSum w0 1 1
        + w0.heating_factor_per_step * w0.u 1 1
    ∧ w1.u 1 1 = 48 := by
  have h : step w0 = Except.ok w1 := by with_unfolding_all rfl
  have hf : senseMean w0 < w0.thermostat_setting ∧ 0 < w0.active_cells_count := by
    with_unfolding_all decide
  have hm : w0.radiator_mask 1 1 = true := by with_unfolding_all rfl
  have hy2 : 1 < w0.ny - 1 := by with_unfolding_all decide
  have hx2 : 1 < w0.nx - 1 := by with_unfolding_all decide
  exact ⟨⟨h, hf, hy2, hx2, hm⟩,
    heat_multiplicative_source w0 w1 h hf 1 1 (le_refl 1) hy2 (le_refl 1) hx2 hm,
    by with_unfolding_all decide⟩

/-- C4 (code bug evaluation): for `steps = 5` (any `1 ≤ steps ≤ 9`), `run`
never terminates normally — `steps // 10 = 0` makes the progress expression
`i % (steps // 10)` raise `ZeroDivisionError` right after the first `step()`
— while `steps = 0` and `steps ≥ 10` behave as the claim says. -/
theorem heat_run_crashes_small_steps :
    (∀ (s s' : Solver), ¬ (run 5 s = Except.ok s'))
    ∧ run 5 base4 = Except.error StepErr.zeroDivErr
    ∧ run 0 base4 = Except.ok base4
    ∧ (∀ s : Solver, run 12 s = stepN 12 s) := by
  refine ⟨?_, by with_unfolding_all rfl, rfl, fun s => rfl⟩
  intro s s'
  show ((step s).bind fun _ => Except.error StepErr.zeroDivErr) = Except.ok s' → False
  cases hstep : step s with
  | error e => exact fun h => Except.noConfusion h
  | ok t => exact fun h => Except.noConfusion h

/-- Configuration whose grid is a single column (`nx = 1 < 3`). -/
def cfgBad : HeatConfig := { cfg4 with Lx := 1, Ly := 3 }

/-- The solver the source happily constructs from `cfgBad`. -/
def badS : Solver := (heatInit cfgBad).getD dummySolver

/-- C5 (code bug evaluation): `__init__` performs no validation — a config
with `Lx = 1, dx = 1` (so `nx = 1 < 3`) constructs successfully and the
failure only surfaces later, as the `IndexError` of the first `step()`
inside `_apply_boundary_conditions` — where the claim demands a failure at
construction time. -/
theorem heat_init_no_validation :
    heatInit cfgBad = some badS ∧ badS.nx = 1 ∧ badS.ny = 3
    ∧ step badS = Except.error StepErr.indexErr := by
  refine ⟨by with_unfolding_all rfl, by with_unfolding_all rfl,
    by with_unfolding_all rfl, by with_unfolding_all rfl⟩

/-- Counterexample to C6 as stated: at `dx = 2`, `alpha = 5/4`, `dt = 6/5`,
the claim's formula `dt > 0.34·dx²/alpha` (`6/5 > 1.088`) says unstable, but
the code's check `dt > 0.34·dx²` reports stable — the check in
`src/notebooks/main.py` does not divide by `alpha`. -/
theorem heat_stability_cex :
    notebookUnstable (6/5) 2 = false ∧ (34/100) * 2^2 / (5/4) < 6/5 := by
  constructor
  · with_unfolding_all rfl
  · norm_num

/-- C6 amended: the notebook reports a configuration as unstable exactly when
`dt > 0.34·dx²` (`alpha` does not enter the check); in particular for
`dx = 2.0` it reports unstable precisely when `dt > 1.36`, for every
`alpha`. -/
theorem heat_stability_threshold :
    (∀ dt h : ℚ, notebookUnstable dt h = true ↔ (34/100) * h^2 < dt)
    ∧ ∀ dt : ℚ, notebookUnstable dt 2 = true ↔ 34/25 < dt := by
  constructor
  · intro dt h
    unfold notebookUnstable
    rw [decide_eq_true_eq]
  · intro dt
    unfold notebookUnstable
    rw [decide_eq_true_eq]
    constructor <;> intro h <;> nlinarith [h]

/-- Counterexample to C7 as stated: immediately after construction the sensor
mask holds at the boundary cell `(0,0)` (the source initialises it with
`np.ones` over the whole domain, not just the interior). -/
theorem heat_sensor_default_cex :
    heatInit cfg4 = some base4 ∧ base4.ny = 4 ∧ base4.nx = 4
    ∧ base4.sensor_mask 0 0 = true := by
  refine ⟨by with_unfolding_all rfl, by with_unfolding_all rfl,
    by with_unfolding_all rfl, by with_unfolding_all rfl⟩

/-- C7 amended: the default sensor mask selects every cell of the domain
(boundary included); after `set_sensor_region(x_start, x_end)` with
nonnegative rounded endpoints, the mask holds exactly on the cells whose row
lies in `[1, ny-1)` (interior rows only) and whose column lies in
`[round(x_start/dx), min(round(x_end/dx), nx))` — boundary columns are not
excluded. -/
theorem heat_sensor_mask_characterization :
    (∀ (cfg : HeatConfig) (s : Solver), heatInit cfg = some s →
      ∀ i j, s.sensor_mask i j = true)
    ∧ ∀ (s : Solver) (x1 x2 : ℚ), 0 ≤ pyRound (x1 / s.dx) → 0 ≤ pyRound (x2 / s.dx) →
        2 ≤ s.ny → ∀ i j,
        ((set_sensor_region x1 x2 s).sensor_mask i j = true ↔
          (1 ≤ i ∧ i < s.ny - 1 ∧ pyRound (x1 / s.dx) ≤ (j:ℤ)
            ∧ (j:ℤ) < min (pyRound (x2 / s.dx)) (s.nx:ℤ))) := by
  constructor
  · intro cfg s h i j
    unfold heatInit at h
    split at h
    · exact Option.noConfusion h
    · dsimp only [] at h
      split at h
      · exact Option.noConfusion h
      · cases h
        rfl
  · intro s x1 x2 h1 h2 hny i j
    show (inSlice s.ny 1 (-1) i
      && inSlice s.nx (pyRound (x1 / s.dx)) (min (pyRound (x2 / s.dx)) (s.nx:ℤ)) j) = true ↔ _
    rw [Bool.and_eq_true]
    unfold inSlice
    simp only [decide_eq_true_eq]
    unfold sliceIdx
    split_ifs <;> omega

/-- Witness for C7's amended statement: on the fresh `4 × 4` solver the
default mask holds everywhere (e.g. at `(0,0)`), and after
`set_sensor_region 0 2` the boundary-column cell `(1,0)` is selected while
the boundary-row cell `(0,0)` is not. -/
theorem heat_sensor_mask_characterization_witness :
    heatInit cfg4 = some base4 ∧ base4.sensor_mask 0 0 = true
    ∧ (0 ≤ pyRound ((0:ℚ) / base4.dx) ∧ 0 ≤ pyRound ((2:ℚ) / base4.dx) ∧ 2 ≤ base4.ny)
    ∧ (set_sensor_region 0 2 base4).sensor_mask 1 0 = true
    ∧ (set_sensor_region 0 2 base4).sensor_mask 0 0 = false := by
  have hinit : heatInit cfg4 = some base4 := by with_unfolding_all rfl
  have ha : 0 ≤ pyRound ((0:ℚ) / base4.dx) := by with_unfolding_all decide
  have hb : 0 ≤ pyRound ((2:ℚ) / base4.dx) := by with_unfolding_all decide
  have hc : 2 ≤ base4.ny := by with_unfolding_all decide
  refine ⟨hinit, heat_sensor_mask_characterization.1 cfg4 base4 hinit 0 0, ⟨ha, hb, hc⟩, ?_, ?_⟩
  · exact (heat_sensor_mask_characterization.2 base4 0 2 ha hb hc 1 0).mpr
      (by with_unfolding_all decide)
  · have hne := (heat_sensor_mask_characterization.2 base4 0 2 ha hb hc 0 0)
    cases hmask : (set_sensor_region 0 2 base4).sensor_mask 0 0 with
    | false => rfl
    | true => exact absurd (hne.mp hmask).1 (by decide)

/-- C8: the heating cells are always interior — the per-step heat injection
`heatDelta` vanishes at every non-interior cell even when the rectangle
passed to `add_radiator` overlaps the boundary, and `active_cells_count`
counts exactly the interior cells of the radiator mask. -/
theorem heat_radiator_interior_only (s : Solver) (x y w h : ℚ) :
    (add_radiator x y w h s).active_cells_count = interiorMaskCard (add_radiator x y w h s)
    ∧ ∀ i j, heatDelta (add_radiator x y w h s) i j ≠ 0 →
        1 ≤ i ∧ i < s.ny - 1 ∧ 1 ≤ j ∧ j < s.nx - 1 := by
  have hny : (add_radiator x y w h s).ny = s.ny := by
    unfold add_radiator
    dsimp only []
    split <;> rfl
  have hnx : (add_radiator x y w h s).nx = s.nx := by
    unfold add_radiator
    dsimp only []
    split <;> rfl
  constructor
  · unfold interiorMaskCard
    rw [hny, hnx]
    have hmask : (add_radiator x y w h s).active_cells_count =
        innerCount s.ny s.nx (add_radiator x y w h s).radiator_mask := by
      unfold add_radiator
      dsimp only []
      split <;> rfl
    rw [hmask]
    exact innerCount_eq_interior s.ny s.nx _
  · intro i j hne
    unfold heatDelta at hne
    rw [hny, hnx] at hne
    by_cases hc : (1 ≤ i ∧ i < s.ny - 1 ∧ 1 ≤ j ∧ j < s.nx - 1)
    · exact hc
    · exfalso
      apply hne
      rw [if_neg]
      rintro ⟨hint, -, -⟩
      exact hc hint

/-- Witness for C8: `w0` arises from `add_radiator 1 1 1 1` on `base4`; its
count matches the interior count and its single heating cell `(1,1)` is
interior. -/
theorem heat_radiator_interior_only_witness :
    w0.active_cells_count = interiorMaskCard w0
    ∧ heatDelta w0 1 1 ≠ 0
    ∧ (1 ≤ 1 ∧ 1 < base4.ny - 1 ∧ 1 ≤ 1 ∧ 1 < base4.nx - 1) := by
  have hne : heatDelta w0 1 1 ≠ 0 := by with_unfolding_all decide
  exact ⟨(heat_radiator_interior_only base4 1 1 1 1).1, hne,
    (heat_radiator_interior_only base4 1 1 1 1).2 1 1 hne⟩

/-- Concrete solver for the C9 amended witness: a `width = 0` call. -/
def w9 : Solver := add_radiator 5 0 0 2 base4

/-- The state after one `step` of `w9`. -/
def w9s : Solver := ((stepN 1 w9).toOption).getD dummySolver

/-- Counterexample to C9 as stated: on the fresh `4 × 4` grid (no active
radiator cells), `add_radiator (-3) 1 1 1` places a rectangle spanning
`x ∈ [-3, -2]` — entirely outside the `[0, 4]` domain — yet Python's
negative slice indices wrap around, the slice `[-3:-2]` selects column 1,
and the interior cell `(1, 1)` becomes an active radiator cell:
`active_cells_count` is 1, not 0. -/
theorem heat_zero_radiator_cex :
    innerCount base4.ny base4.nx base4.radiator_mask = 0
    ∧ ((-3 : ℚ) + 1 ≤ 0) ∧ base4.nx = 4 ∧ base4.dx = 1
    ∧ (add_radiator (-3) 1 1 1 base4).active_cells_count = 1 := by
  refine ⟨by with_unfolding_all decide, by norm_num, by with_unfolding_all rfl,
    by with_unfolding_all rfl, by with_unfolding_all decide⟩

/-- C9 amended: an `add_radiator` call with `width = 0`, or whose rectangle
lies beyond the domain's far edges (`round(x/dx) ≥ nx` or
`round(y/dx) ≥ ny`; rectangles at negative coordinates are excluded because
Python's negative slice indices wrap around), made on a solver with no
active radiator cells and zero heating factor, yields
`active_cells_count = 0` and `heating_factor_per_step = 0`, and every
subsequent `step()` leaves `total_energy` unchanged. -/
theorem heat_zero_radiator_amended (s : Solver) (x y w h : ℚ)
    (hpre : innerCount s.ny s.nx s.radiator_mask = 0)
    (hfac : s.heating_factor_per_step = 0)
    (hout : w = 0 ∨ (s.nx : ℤ) ≤ pyRound (x / s.dx) ∨ (s.ny : ℤ) ≤ pyRound (y / s.dx)) :
    (add_radiator x y w h s).active_cells_count = 0
    ∧ (add_radiator x y w h s).heating_factor_per_step = 0
    ∧ ∀ (n : ℕ) (s'' : Solver), stepN n (add_radiator x y w h s) = Except.ok s'' →
        s''.total_energy = (add_radiator x y w h s).total_energy := by
  have hslice : ∀ i j,
      (inSlice s.ny (pyRound (y / s.dx)) (min (pyRound ((y + h) / s.dx)) (s.ny : ℤ)) i
        && inSlice s.nx (pyRound (x / s.dx)) (min (pyRound ((x + w) / s.dx)) (s.nx : ℤ)) j)
        = false := by
    intro i j
    rcases hout with hw | hx | hy
    · subst hw
      rw [show x + 0 = x from add_zero x]
      rw [inSlice_min_same s.nx (pyRound (x / s.dx)) j]
      exact Bool.and_false _
    · rw [inSlice_start_ge s.nx _ _ hx j]
      exact Bool.and_false _
    · rw [inSlice_start_ge s.ny _ _ hy i]
      exact Bool.false_and _
  have hfun : (fun i j => s.radiator_mask i j ||
      (inSlice s.ny (pyRound (y / s.dx)) (min (pyRound ((y + h) / s.dx)) (s.ny : ℤ)) i
        && inSlice s.nx (pyRound (x / s.dx)) (min (pyRound ((x + w) / s.dx)) (s.nx : ℤ)) j))
      = s.radiator_mask := by
    funext i j
    rw [hslice i j, Bool.or_false]
  unfold add_radiator
  dsimp only []
  rw [hfun, hpre]
  rw [if_neg (by omega : ¬ (0:ℕ) < 0)]
  refine ⟨rfl, hfac, ?_⟩
  intro n s'' hs
  exact stepN_energy_const n _ s'' rfl hs

/-- Witness for C9's amended statement: a `width = 0` call on the fresh grid
leaves the count and factor at 0 and one subsequent step leaves
`total_energy` unchanged. -/
theorem heat_zero_radiator_amended_witness :
    (innerCount base4.ny base4.nx base4.radiator_mask = 0
      ∧ base4.heating_factor_per_step = 0
      ∧ ((0:ℚ) = 0 ∨ (base4.nx : ℤ) ≤ pyRound (5 / base4.dx)
          ∨ (base4.ny : ℤ) ≤ pyRound (0 / base4.dx)))
    ∧ w9.active_cells_count = 0 ∧ w9.heating_factor_per_step = 0
    ∧ stepN 1 w9 = Except.ok w9s ∧ w9s.total_energy = w9.total_energy := by
  have hpre : innerCount base4.ny base4.nx base4.radiator_mask = 0 := by
    with_unfolding_all decide
  have hfac : base4.heating_factor_per_step = 0 := by with_unfolding_all rfl
  have hout : (0:ℚ) = 0 ∨ (base4.nx : ℤ) ≤ pyRound (5 / base4.dx)
      ∨ (base4.ny : ℤ) ≤ pyRound (0 / base4.dx) := Or.inl rfl
  have hs : stepN 1 w9 = Except.ok w9s := by with_unfolding_all rfl
  obtain ⟨h1, h2, h3⟩ := heat_zero_radiator_amended base4 5 0 0 2 hpre hfac hout
  exact ⟨⟨hpre, hfac, hout⟩, h1, h2, hs, h3 1 w9s hs⟩

/-- C10: when there are no active radiator cells — the state on which
`add_radiator` has never been called, or only `clear_radiators` — the
thermostat guard makes the heating branch (the only reader of the
possibly-undefined `mask_inner`) unreachable: `step` succeeds without
`AttributeError` even with `mask_inner_defined = false`, injects no heat
(the new field is exactly diffusion plus boundary conditions) and leaves
`total_energy` unchanged; `clear_radiators` re-establishes a zero count. -/
theorem heat_step_no_radiator (s : Solver) (hc : s.active_cells_count = 0)
    (hx : 2 ≤ s.nx) (hy : 2 ≤ s.ny) :
    step s = Except.ok { s with u := applyBCu s (diffOnly s) }
    ∧ (clear_radiators s).active_cells_count = 0 := by
  have hnf : ¬ fireCond s := fun hf => by have h2 := hf.2; omega
  constructor
  · unfold step
    rw [if_neg (fun hcon => hnf hcon.1), if_neg (by omega : ¬ (s.nx < 2 ∨ s.ny < 2))]
    have h1 : updatedInterior s = diffOnly s := by
      funext i j
      unfold updatedInterior diffOnly
      by_cases hint : 1 ≤ i ∧ i < s.ny - 1 ∧ 1 ≤ j ∧ j < s.nx - 1
      · rw [if_pos hint, if_pos hint]
        have hz : heatDelta s i j = 0 := by
          unfold heatDelta
          exact if_neg (fun hcon => hnf hcon.2.1)
        rw [hz, add_zero]
      · rw [if_neg hint, if_neg hint]
    have h2 : s.total_energy + eDelta s = s.total_energy := by
      rw [eDelta_zero_of_no_cells s hc, add_zero]
    rw [h1, h2]
  · rfl

/-- Witness for C10 on the freshly constructed solver, whose `mask_inner`
was never created. -/
theorem heat_step_no_radiator_witness :
    (base4.active_cells_count = 0 ∧ 2 ≤ base4.nx ∧ 2 ≤ base4.ny
      ∧ base4.mask_inner_defined = false)
    ∧ step base4 = Except.ok { base4 with u := applyBCu base4 (diffOnly base4) }
    ∧ (clear_radiators base4).active_cells_count = 0 := by
  have hc : base4.active_cells_count = 0 := by with_unfolding_all rfl
  have hx : 2 ≤ base4.nx := by with_unfolding_all decide
  have hy : 2 ≤ base4.ny := by with_unfolding_all decide
  have hm : base4.mask_inner_defined = false := by with_unfolding_all rfl
  obtain ⟨h1, h2⟩ := heat_step_no_radiator base4 hc hx hy
  exact ⟨⟨hc, hx, hy, hm⟩, h1, h2⟩

end Heat
